import Mathlib

/-!
Verification of the data reconciliation and ordination pipeline of the
MGnify waste-water-treatment dashboard page
(`pages/2_Summary_of_a_specific_study.py`).

The Python source is shallowly embedded: pandas DataFrames become Lean
structures holding lists of typed rows, numeric cells are rationals,
missing values (NaN) are `Option.none`, and the in-place column update the
script performs on the sample-metadata table is made explicit by returning
the updated table.  Library calls whose numeric output the page only
forwards (the fitted PCA components, the PCoA eigendecomposition, the
square roots used by the scaler) enter as explicit function parameters,
while their shape and error contracts are embedded directly.
-/

namespace WWT

/-- Error taxonomy of the pipeline.  The script itself signals a missing
abundance file by returning `None`; the numeric libraries raise
`ValueError`s, which the design documents as dimension errors when they
come from the 2-component requirement. -/
inductive PipeError where
  | NotFound
  | SchemaError
  | DimensionError
  | ValueError
deriving DecidableEq

/-- Boolean test that `pat` occurs at the start of `s` (on character lists). -/
def isPre (pat s : List Char) : Bool :=
  match pat, s with
  | [], _ => true
  | _ :: _, [] => false
  | p :: ps, c :: cs => if p = c then isPre ps cs else false

/-- Boolean test that `pat` occurs somewhere inside `s` (on character lists). -/
def hasInfixChars (pat s : List Char) : Bool :=
  match s with
  | [] => isPre pat []
  | _ :: cs => isPre pat s || hasInfixChars pat cs

/-- Substring containment on strings, embedding `Series.str.contains` with a
plain-text (metacharacter-free) pattern. -/
def containsSub (s pat : String) : Bool := hasInfixChars pat.toList s.toList

/-- Splitting a character list on a separator character; the result always has
one more chunk than there are separators, so it is never empty. -/
def splitOnChar (sep : Char) : List Char → List (List Char)
  | [] => [[]]
  | c :: rest =>
    match splitOnChar sep rest with
    | [] => if c = sep then [[], []] else [[c]]
    | h :: t => if c = sep then [] :: h :: t else (c :: h) :: t

/-- Embedding of Python `str.split(';')` (also the behaviour of
`Series.str.split(';')` on string cells). -/
def splitSemicolon (s : String) : List String :=
  (splitOnChar ';' s.toList).map (fun cs => String.mk cs)

/-- One row of the raw abundance table: the taxonomic-rank cells (the
`kingdom` column is present in every source file, `superkingdom` only in
some schema versions) and one numeric count cell per analysis column. -/
structure ARow where
  kingdom : Option String
  superkingdom : Option String
  phylum : String
  counts : List ℚ
deriving DecidableEq

/-- An abundance DataFrame: schema flags for the rank columns that vary by
source pipeline version, the analysis column names, and the rows, each
carried with its pandas index label. -/
structure AbundTable where
  hasKingdom : Bool
  hasSuperkingdom : Bool
  analyses : List String
  rows : List (Nat × ARow)
deriving DecidableEq

/-- Embedding of `load_abund_table`: the `glob.glob` result (a list of paths
in the order the operating system returned them) is passed in explicitly;
the function returns `none` when no file matched and otherwise the first
element of that list, exactly as `file[0]` does. -/
def load_abund_table (globMatches : List String) : Option String :=
  match globMatches with
  | [] => none
  | f :: _ => some f

/-- Column-dropping step of the normalizer: `DataFrame.drop` removes
`kingdom` (and `superkingdom` when that column exists) and raises when a
named column is absent. -/
def dropRankCols (t : AbundTable) : Except PipeError AbundTable :=
  if t.hasSuperkingdom then
    if t.hasKingdom then
      Except.ok { t with hasKingdom := false, hasSuperkingdom := false }
    else Except.error PipeError.SchemaError
  else
    if t.hasKingdom then Except.ok { t with hasKingdom := false }
    else Except.error PipeError.SchemaError

/-- Row-filtering and reindexing steps of the normalizer: drop `Unassigned`
and `Candidatus`/`candidate` phyla, then `reset_index(drop=True)`. -/
def filterRows (t : AbundTable) : AbundTable :=
  let rws := t.rows.filter (fun ir => ir.2.phylum != "Unassigned")
  let rws := rws.filter (fun ir => !(containsSub ir.2.phylum "Candidatus"))
  let rws := rws.filter (fun ir => !(containsSub ir.2.phylum "candidate"))
  { t with rows := (List.range (rws.map Prod.snd).length).zip (rws.map Prod.snd) }

/-- Embedding of `preprocess_abund_table`: drop the rank columns, filter the
invalid phylum rows, and reset the index. -/
def preprocess_abund_table (t : AbundTable) : Except PipeError AbundTable :=
  match dropRankCols t with
  | Except.error e => Except.error e
  | Except.ok t1 => Except.ok (filterRows t1)

/-- Claim C4: on every input on which it succeeds, the normalizer returns a
table with no `Unassigned` phylum row, no row whose phylum contains
`Candidatus` or `candidate`, no `kingdom` or `superkingdom` column, and a
contiguous row index starting at 0. -/
theorem C4_normalizer_clean (t t' : AbundTable)
    (h : preprocess_abund_table t = Except.ok t') :
    (t'.rows.all (fun ir =>
        (ir.2.phylum != "Unassigned") &&
        !(containsSub ir.2.phylum "Candidatus") &&
        !(containsSub ir.2.phylum "candidate")) = true) ∧
    t'.hasKingdom = false ∧ t'.hasSuperkingdom = false ∧
    t'.rows.map Prod.fst = List.range t'.rows.length := by
  unfold preprocess_abund_table at h
  rcases hd : dropRankCols t with e | t1
  · rw [hd] at h; exact absurd h (by simp)
  rw [hd] at h
  have ht' : t' = filterRows t1 := by
    injection h with h2
    exact h2.symm
  subst ht'
  have hflag : t1.hasKingdom = false ∧ t1.hasSuperkingdom = false := by
    unfold dropRankCols at hd
    by_cases hsk : t.hasSuperkingdom <;> by_cases hk : t.hasKingdom <;>
      simp [hsk, hk] at hd
    all_goals (rcases hd with rfl; exact ⟨rfl, rfl⟩)
  refine ⟨?_, hflag.1, hflag.2, ?_⟩
  · rw [List.all_eq_true]
    intro ir hir
    unfold filterRows at hir
    simp only [] at hir
    have hz := List.of_mem_zip hir
    rcases hz with ⟨-, hmem⟩
    rw [List.mem_map] at hmem
    rcases hmem with ⟨jr, hjr, hsnd⟩
    rw [List.mem_filter] at hjr
    rcases hjr with ⟨hjr2, hcand⟩
    rw [List.mem_filter] at hjr2
    rcases hjr2 with ⟨hjr3, hCand⟩
    rw [List.mem_filter] at hjr3
    rcases hjr3 with ⟨-, huna⟩
    simp only [← hsnd]
    simp [huna, hCand, hcand]
  · unfold filterRows
    simp only []
    rw [List.length_zip, List.length_range, min_self, List.map_fst_zip]
    rw [List.length_range]

/-- Witness for C4 at a concrete table: one `Unassigned` row, one
`Candidatus` row and one valid row, with a `kingdom` column present. -/
theorem C4_normalizer_clean_witness :
    (preprocess_abund_table
        { hasKingdom := true, hasSuperkingdom := false, analyses := ["a"],
          rows := [(0, ⟨some "Bacteria", none, "Unassigned", [3]⟩),
                   (1, ⟨some "Bacteria", none, "Candidatus Foo", [4]⟩),
                   (2, ⟨some "Bacteria", none, "Proteobacteria", [5]⟩)] } =
      Except.ok
        { hasKingdom := false, hasSuperkingdom := false, analyses := ["a"],
          rows := [(0, ⟨some "Bacteria", none, "Proteobacteria", [5]⟩)] }) ∧
    ([(0, (⟨some "Bacteria", none, "Proteobacteria", [5]⟩ : ARow))].all (fun ir =>
        (ir.2.phylum != "Unassigned") &&
        !(containsSub ir.2.phylum "Candidatus") &&
        !(containsSub ir.2.phylum "candidate")) = true) := by
  refine ⟨rfl, ?_⟩
  have h := C4_normalizer_clean
    { hasKingdom := true, hasSuperkingdom := false, analyses := ["a"],
      rows := [(0, ⟨some "Bacteria", none, "Unassigned", [3]⟩),
               (1, ⟨some "Bacteria", none, "Candidatus Foo", [4]⟩),
               (2, ⟨some "Bacteria", none, "Proteobacteria", [5]⟩)] }
    { hasKingdom := false, hasSuperkingdom := false, analyses := ["a"],
      rows := [(0, ⟨some "Bacteria", none, "Proteobacteria", [5]⟩)] }
    rfl
  exact h.1

/-- Claim C8 counterexample: when `glob` returns the two matches in the
order `["b.tsv", "a.tsv"]`, the loader selects `b.tsv`, which is not the
lexicographically first matching path (`a.tsv` is). -/
theorem C8_loader_counterexample :
    load_abund_table ["b.tsv", "a.tsv"] = some "b.tsv" ∧
    ("a.tsv" : String) < "b.tsv" ∧ ("b.tsv" : String) ≠ "a.tsv" := by
  refine ⟨rfl, ?_, by decide⟩
  rw [String.lt_iff_toList_lt]
  decide

/-- Claim C8 (amended): the loader fails (returns `none`, the `NotFound`
signal) exactly on an empty `glob` result, and with one or more matches it
deterministically returns the first element of the list in the order the
operating system produced it, which need not be lexicographically first. -/
theorem C8_loader_amended :
    load_abund_table [] = none ∧
    ∀ (f : String) (rest : List String), load_abund_table (f :: rest) = some f :=
  ⟨rfl, fun _ _ => rfl⟩

/-- A cell of the `assembly_run_ids` column.  In the loaded metadata it
holds the raw semicolon-joined string; after the script's in-place
`Series.str.split(';')` assignment it holds a list of identifiers. -/
inductive Cell where
  | s (v : String)
  | l (v : List String)
deriving DecidableEq

/-- One row of the sample-metadata table (`NaN` biome descriptors are
`none`). -/
structure MRow where
  sample_id : String
  assembly_run_ids : Cell
  biome_feature : Option String
  biome_material : Option String
deriving DecidableEq

/-- One row of the exploded metadata table: a single analysis identifier. -/
structure ERow where
  sample_id : String
  run_id : String
  biome_feature : Option String
  biome_material : Option String
deriving DecidableEq

/-- One row of the long-form (melted) abundance table. -/
structure LRow where
  phylum : String
  run_id : String
  count : ℚ
deriving DecidableEq

/-- One row of the merged metadata/abundance table. -/
structure MergedRow where
  sample_id : String
  run_id : String
  biome_feature : Option String
  biome_material : Option String
  phylum : String
  count : ℚ
deriving DecidableEq

/-- One row of the final reconciled table `samples_df`. -/
structure SRow where
  run_id : String
  sample_id : String
  biome_feature : String
  biome_material : String
  biome : String
deriving DecidableEq

/-- Effect of `Series.str.split(';')` on one cell.  The script only ever
applies it to freshly loaded string cells. -/
def splitCell : Cell → Cell
  | Cell.s v => Cell.l (splitSemicolon v)
  | Cell.l v => Cell.l v

/-- The in-place update `sample_info['assembly_run_ids'] = ...str.split(';')`
made explicit: it returns the sample-metadata table with that one column
overwritten. -/
def splitRunIds (meta : List MRow) : List MRow :=
  meta.map (fun r => { r with assembly_run_ids := splitCell r.assembly_run_ids })

/-- List of identifiers an exploded cell contributes one row for apiece
(`DataFrame.explode` keeps a non-list scalar as a single row). -/
def cellIds : Cell → List String
  | Cell.s v => [v]
  | Cell.l v => v

/-- Embedding of `sample_info.explode('assembly_run_ids')`. -/
def explode (meta : List MRow) : List ERow :=
  meta.flatMap (fun r => (cellIds r.assembly_run_ids).map
    (fun i => ⟨r.sample_id, i, r.biome_feature, r.biome_material⟩))

/-- Melting of the abundance columns, one analysis column at a time
(`j` tracks the position of the current column in the `counts` cells). -/
def meltCols (anames : List String) (j : Nat) (rws : List (Nat × ARow)) : List LRow :=
  match anames with
  | [] => []
  | a :: rest =>
      rws.map (fun ir => ⟨ir.2.phylum, a, ir.2.counts.getD j 0⟩) ++ meltCols rest (j + 1) rws

/-- Embedding of `abund_table.melt(id_vars='phylum', ...)`: one row per
(phylum row, analysis column) pair, column-major as pandas produces it. -/
def meltAbund (t : AbundTable) : List LRow := meltCols t.analyses 0 t.rows

/-- Embedding of the inner `pd.merge` on `assembly_run_ids`: pandas keeps
the order of the left keys, pairing each left row with every matching right
row. -/
def mergeInner (left : List ERow) (right : List LRow) : List MergedRow :=
  left.flatMap (fun e =>
    (right.filter (fun l => l.run_id == e.run_id)).map
      (fun l => ⟨e.sample_id, e.run_id, e.biome_feature, e.biome_material, l.phylum, l.count⟩))

/-- Embedding of `drop_duplicates(subset=['assembly_run_ids'])`: keep the
first row for each identifier (`seen` accumulates identifiers already kept). -/
def dedupBy (seen : List String) : List MergedRow → List MergedRow
  | [] => []
  | r :: rs =>
      if r.run_id ∈ seen then dedupBy seen rs
      else r :: dedupBy (r.run_id :: seen) rs

/-- Projection to the four kept columns, `fillna('NA')` on the biome
descriptors, and construction of the combined Biome label. -/
def projectRow (m : MergedRow) : SRow :=
  let f := m.biome_feature.getD "NA"
  let b := m.biome_material.getD "NA"
  ⟨m.run_id, m.sample_id, f, b, f ++ " - " ++ b⟩

/-- Kernel-evaluable codepoint-lexicographic comparison on strings; this is
the order `sort_values` uses on Python string keys. -/
def leStr (a b : String) : Bool := decide (a.toList ≤ b.toList)

/-- Embedding of `sort_values(by=['assembly_run_ids'])`.  The identifiers
are unique after deduplication, so any comparison sort yields this result. -/
def sortSamples (l : List SRow) : List SRow :=
  l.insertionSort (fun a b => leStr a.run_id b.run_id = true)

/-- The reconciled `samples_df` computed from the already-split metadata
table and the normalized abundance table: merge, deduplicate, project,
label, sort. -/
def samplesOf (meta2 : List MRow) (t : AbundTable) : List SRow :=
  sortSamples ((dedupBy [] (mergeInner (explode meta2) (meltAbund t))).map projectRow)

/-- The reconciled table as the script computes it from the loaded
(unsplit) metadata. -/
def samples_df (meta : List MRow) (t : AbundTable) : List SRow :=
  samplesOf (splitRunIds meta) t

/-- The reconciler section of the script with its state made explicit: it
returns the final value of the `sample_info` object (whose run-ids column
the script overwrites in place), the final value of the abundance-table
object (to which the script applies no in-place operation), and the derived
`samples_df`. -/
def runReconciler (meta : List MRow) (t : AbundTable) :
    List MRow × AbundTable × List SRow :=
  let meta2 := splitRunIds meta
  (meta2, t, samplesOf meta2 t)

instance : IsTotal SRow (fun a b => leStr a.run_id b.run_id = true) :=
  ⟨fun a b => by
    simp only [leStr, decide_eq_true_eq]
    exact le_total a.run_id.toList b.run_id.toList⟩

instance : IsTrans SRow (fun a b => leStr a.run_id b.run_id = true) :=
  ⟨fun a b c hab hbc => by
    simp only [leStr, decide_eq_true_eq] at hab hbc ⊢
    exact le_trans hab hbc⟩

instance : IsAntisymm String (fun a b => leStr a b = true) :=
  ⟨fun a b hab hba => by
    simp only [leStr, decide_eq_true_eq] at hab hba
    exact String.ext (le_antisymm hab hba)⟩

theorem mem_dedupBy {x : MergedRow} :
    ∀ (seen : List String) (l : List MergedRow), x ∈ dedupBy seen l → x ∈ l := by
  intro seen l
  induction l generalizing seen with
  | nil => simp [dedupBy]
  | cons r rs ih =>
      intro hx
      unfold dedupBy at hx
      by_cases hr : r.run_id ∈ seen
      · simp only [if_pos hr] at hx
        exact List.mem_cons_of_mem r (ih seen hx)
      · simp only [if_neg hr] at hx
        rcases List.mem_cons.mp hx with h | h
        · exact h ▸ List.mem_cons_self r rs
        · exact List.mem_cons_of_mem r (ih _ h)

theorem mem_ids_dedupBy {a : String} :
    ∀ (seen : List String) (l : List MergedRow),
      (a ∈ (dedupBy seen l).map MergedRow.run_id ↔
        a ∈ l.map MergedRow.run_id ∧ a ∉ seen) := by
  intro seen l
  induction l generalizing seen with
  | nil => simp [dedupBy]
  | cons r rs ih =>
      unfold dedupBy
      by_cases hr : r.run_id ∈ seen
      · simp only [if_pos hr, ih, List.map_cons, List.mem_cons]
        constructor
        · rintro ⟨h1, h2⟩; exact ⟨Or.inr h1, h2⟩
        · rintro ⟨h1 | h1, h2⟩
          · exact absurd (h1 ▸ hr) h2
          · exact ⟨h1, h2⟩
      · simp only [if_neg hr, List.map_cons, List.mem_cons, ih, List.mem_cons]
        constructor
        · rintro (h | ⟨h1, h2⟩)
          · exact ⟨Or.inl h, h ▸ hr⟩
          · exact ⟨Or.inr h1, fun hs => h2 (Or.inr hs)⟩
        · rintro ⟨h1 | h1, h2⟩
          · exact Or.inl h1
          · by_cases hra : a = r.run_id
            · exact Or.inl hra
            · exact Or.inr ⟨h1, fun hs => hs.elim (fun h => hra h) (fun h => h2 h)⟩

theorem ids_dedupBy_nodup :
    ∀ (seen : List String) (l : List MergedRow),
      ((dedupBy seen l).map MergedRow.run_id).Nodup := by
  intro seen l
  induction l generalizing seen with
  | nil => simp [dedupBy]
  | cons r rs ih =>
      unfold dedupBy
      by_cases hr : r.run_id ∈ seen
      · simp only [if_pos hr]; exact ih seen
      · simp only [if_neg hr, List.map_cons, List.nodup_cons]
        refine ⟨fun hmem => ?_, ih _⟩
        exact ((mem_ids_dedupBy _ rs).mp hmem).2 (List.mem_cons_self _ _)

theorem ids_map_projectRow (l : List MergedRow) :
    (l.map projectRow).map SRow.run_id = l.map MergedRow.run_id := by
  rw [List.map_map]; rfl

theorem sortSamples_perm (l : List SRow) : (sortSamples l).Perm l :=
  List.perm_insertionSort _ l

theorem sortSamples_sorted_ids (l : List SRow) :
    List.Sorted (fun a b : String => leStr a b = true)
      ((sortSamples l).map SRow.run_id) := by
  have hs := List.sorted_insertionSort
    (fun a b : SRow => leStr a.run_id b.run_id = true) l
  exact List.Pairwise.map SRow.run_id (fun a b h => h) hs

theorem mem_ids_mergeInner {a : String} (left : List ERow) (right : List LRow) :
    a ∈ (mergeInner left right).map MergedRow.run_id ↔
      (∃ e ∈ left, e.run_id = a) ∧ (∃ l ∈ right, l.run_id = a) := by
  unfold mergeInner
  constructor
  · intro h
    rcases List.mem_map.mp h with ⟨m, hm, hma⟩
    rcases List.mem_flatMap.mp hm with ⟨e, he, hme⟩
    rcases List.mem_map.mp hme with ⟨l, hl, hml⟩
    rcases List.mem_filter.mp hl with ⟨hlr, hleq⟩
    rw [beq_iff_eq] at hleq
    subst hml
    exact ⟨⟨e, he, hma⟩, ⟨l, hlr, by rw [hleq]; exact hma⟩⟩
  · rintro ⟨⟨e, he, hea⟩, ⟨l, hl, hla⟩⟩
    refine List.mem_map.mpr ⟨⟨e.sample_id, e.run_id, e.biome_feature,
      e.biome_material, l.phylum, l.count⟩, ?_, hea⟩
    refine List.mem_flatMap.mpr ⟨e, he, ?_⟩
    exact List.mem_map.mpr ⟨l, List.mem_filter.mpr
      ⟨hl, beq_iff_eq.mpr (hla.trans hea.symm)⟩, rfl⟩

theorem mem_ids_meltCols {a : String} :
    ∀ (anames : List String) (j : Nat) (rws : List (Nat × ARow)),
      ((∃ l ∈ meltCols anames j rws, l.run_id = a) ↔ a ∈ anames ∧ rws ≠ []) := by
  intro anames
  induction anames with
  | nil => simp [meltCols]
  | cons b rest ih =>
      intro j rws
      unfold meltCols
      constructor
      · rintro ⟨l, hl, hla⟩
        rcases List.mem_append.mp hl with h | h
        · rcases List.mem_map.mp h with ⟨ir, hir, hlir⟩
          refine ⟨by rw [← hla, ← hlir]; exact List.mem_cons_self _ _, ?_⟩
          intro hrws; rw [hrws] at hir; exact absurd hir (List.not_mem_nil ir)
        · rcases (ih (j + 1) rws).mp ⟨l, h, hla⟩ with ⟨h1, h2⟩
          exact ⟨List.mem_cons_of_mem b h1, h2⟩
      · rintro ⟨hmem, hne⟩
        rcases List.mem_cons.mp hmem with h | h
        · rcases List.exists_mem_of_ne_nil rws hne with ⟨ir, hir⟩
          refine ⟨⟨ir.2.phylum, b, ir.2.counts.getD j 0⟩,
            List.mem_append.mpr (Or.inl (List.mem_map.mpr ⟨ir, hir, rfl⟩)), h.symm⟩
        · rcases (ih (j + 1) rws).mpr ⟨h, hne⟩ with ⟨l, hl, hla⟩
          exact ⟨l, List.mem_append.mpr (Or.inr hl), hla⟩

/-- Claim C5: in the reconciled `samples_df` every analysis identifier
appears at most once, and every row's Biome label is the concatenation
`feature - material` over the exploded metadata row it came from, with the
`NA` sentinel substituted for missing descriptors. -/
theorem C5_reconciler_unique_wellformed (meta : List MRow) (t : AbundTable) :
    ((samples_df meta t).map SRow.run_id).Nodup ∧
    ((samples_df meta t).all (fun r =>
      (explode (splitRunIds meta)).any (fun e =>
        (r.run_id == e.run_id) &&
        (r.biome == (e.biome_feature.getD "NA") ++ " - " ++
          (e.biome_material.getD "NA")))) = true) := by
  constructor
  · have hperm : ((samples_df meta t).map SRow.run_id).Perm
        (((dedupBy [] (mergeInner (explode (splitRunIds meta)) (meltAbund t))).map
          projectRow).map SRow.run_id) :=
      (sortSamples_perm _).map SRow.run_id
    rw [hperm.nodup_iff, ids_map_projectRow]
    exact ids_dedupBy_nodup [] _
  · rw [List.all_eq_true]
    intro r hr
    have hr2 : r ∈ (dedupBy [] (mergeInner (explode (splitRunIds meta))
        (meltAbund t))).map projectRow := (sortSamples_perm _).subset hr
    rcases List.mem_map.mp hr2 with ⟨m, hm, hmr⟩
    have hm2 : m ∈ mergeInner (explode (splitRunIds meta)) (meltAbund t) :=
      mem_dedupBy [] _ hm
    unfold mergeInner at hm2
    rcases List.mem_flatMap.mp hm2 with ⟨e, he, hme⟩
    rcases List.mem_map.mp hme with ⟨l, _, hml⟩
    rw [List.any_eq_true]
    refine ⟨e, he, ?_⟩
    rw [← hmr, ← hml]
    simp [projectRow]

/-- Claim C9 counterexample: the reconciler does not leave the loader's
sample-metadata table unchanged — after it runs, the `assembly_run_ids`
column of `sample_info` holds split lists instead of the loaded strings. -/
theorem C9_reconciler_mutates_counterexample :
    (runReconciler [⟨"S1", Cell.s "A1;A2", none, none⟩]
        { hasKingdom := false, hasSuperkingdom := false, analyses := ["A1", "A2"],
          rows := [(0, ⟨none, none, "Proteobacteria", [10, 0]⟩)] }).1
      ≠ [⟨"S1", Cell.s "A1;A2", none, none⟩] := by
  decide

/-- Claim C9 (amended): the abundance table is never mutated, and the
reconciler leaves every column of the sample-metadata table unchanged
except `assembly_run_ids`, which it overwrites in place with the
semicolon-split identifier lists. -/
theorem C9_frame_amended (meta : List MRow) (t : AbundTable) :
    (runReconciler meta t).2.1 = t ∧
    (runReconciler meta t).1.map MRow.sample_id = meta.map MRow.sample_id ∧
    (runReconciler meta t).1.map MRow.biome_feature = meta.map MRow.biome_feature ∧
    (runReconciler meta t).1.map MRow.biome_material = meta.map MRow.biome_material ∧
    (runReconciler meta t).1.map MRow.assembly_run_ids
      = meta.map (fun r => splitCell r.assembly_run_ids) := by
  refine ⟨rfl, ?_, ?_, ?_, ?_⟩ <;>
    simp [runReconciler, splitRunIds, List.map_map, Function.comp]

/-- Embedding of `abund_table.set_index('phylum').T`: the matrix whose
rows are the analyses (in column order) and whose columns are the phyla. -/
def transposeCounts (t : AbundTable) : List (List ℚ) :=
  (List.range t.analyses.length).map (fun j => t.rows.map (fun ir => ir.2.counts.getD j 0))

/-- Arithmetic mean of a column, as the scaler computes it. -/
def colMean (xs : List ℚ) : ℚ := xs.sum / xs.length

/-- Population variance of a column, as the scaler computes it. -/
def popVar (xs : List ℚ) : ℚ :=
  ((xs.map (fun x => (x - colMean xs) ^ 2)).sum) / xs.length

/-- The scaler's `_handle_zeros_in_scale` guard: a zero standard deviation
(equivalently, zero variance) is replaced by 1 so constant columns divide
by 1 instead of 0.  `sqrtv` is the library-computed square root of `v`. -/
def scaleOf (v sqrtv : ℚ) : ℚ := if v = 0 then 1 else sqrtv

/-- Number of feature (phylum) columns of a row-major matrix. -/
def nFeatures (X : List (List ℚ)) : Nat := (X.headD []).length

/-- Column `j` of a row-major matrix. -/
def colOf (X : List (List ℚ)) (j : Nat) : List ℚ := X.map (fun r => r.getD j 0)

/-- Embedding of `StandardScaler().fit_transform`: center every column on
its mean and divide by its guarded standard deviation.  The square roots
the library takes are supplied by `sqrtFn` (applied to each column's
variance); they only matter for nonzero variances, where the guard leaves
them untouched. -/
def standardizeMatrix (sqrtFn : ℚ → ℚ) (X : List (List ℚ)) : List (List ℚ) :=
  X.map (fun row => (List.range (nFeatures X)).map (fun j =>
    (row.getD j 0 - colMean (colOf X j)) /
      scaleOf (popVar (colOf X j)) (sqrtFn (popVar (colOf X j)))))

/-- Dot product of two vectors. -/
def dotProd (u v : List ℚ) : ℚ := ((u.zip v).map (fun p => p.1 * p.2)).sum

/-- Embedding of `pca.transform` for a fitted 2-component PCA: each row of
the standardized matrix is projected onto the two fitted component axes
`w1`, `w2` (supplied as parameters, since their values come from the
library's eigendecomposition). -/
def pcaTransform (w1 w2 : List ℚ) (X : List (List ℚ)) : List (ℚ × ℚ) :=
  X.map (fun row => (dotProd row w1, dotProd row w2))

/-- An embedding-table row: two coordinates and the positionally attached
Biome label (`none` embeds the NaN pandas fills in when the label column is
shorter than the coordinate table). -/
abbrev Emb : Type := ℚ × ℚ × Option String

/-- Embedding of the positional column assignment
`df['biome'] = samples_df['biome']`: row `i` of the coordinate table
receives element `i` of the label column when it exists and NaN otherwise. -/
def attachBiome (coords : List (ℚ × ℚ)) (biomes : List String) : List Emb :=
  (List.range coords.length).map (fun i =>
    ((coords.getD i (0, 0)).1, (coords.getD i (0, 0)).2, biomes.get? i))

/-- Embedding of `scipy`'s `braycurtis(u, v)`: total absolute difference
over total absolute sum, `none` standing for the NaN produced when the
denominator is zero. -/
def scipyBrayCurtis (u v : List ℚ) : Option ℚ :=
  let num := ((u.zip v).map (fun p => |p.1 - p.2|)).sum
  let den := ((u.zip v).map (fun p => |p.1 + p.2|)).sum
  if den = 0 then none else some (num / den)

/-- Embedding of `np.nan_to_num(_, nan=0.0)` on one entry. -/
def nanToNum (o : Option ℚ) : ℚ := o.getD 0

/-- The Bray-Curtis dissimilarity matrix of the analysis rows, after the
script's NaN-to-0 replacement. -/
def bc_mat (X : List (List ℚ)) : List (List ℚ) :=
  X.map (fun u => X.map (fun v => nanToNum (scipyBrayCurtis u v)))

/-- Modelled from the spec: the specified Bray-Curtis dissimilarity — sum
over phyla of the absolute count difference divided by the sum of the
plain count sums, defined as 0 when the denominator vanishes. -/
def braycurtisSpec (u v : List ℚ) : ℚ :=
  let num := ((u.zip v).map (fun p => |p.1 - p.2|)).sum
  let den := ((u.zip v).map (fun p => p.1 + p.2)).sum
  if den = 0 then 0 else num / den

/-- The PCA branch of the ordination engine.  It transposes the normalized
table, fails exactly where the numeric libraries raise — fewer than 2
analysis rows or fewer than 2 phylum columns cannot satisfy
`n_components=2` (the empty matrix is already rejected by the scaler) —
and otherwise standardizes, projects on the two fitted axes, and attaches
the Biome labels positionally. -/
def pcaBranch (sqrtFn : ℚ → ℚ) (w1 w2 : List ℚ) (t : AbundTable)
    (samples : List SRow) : Except PipeError (List Emb) :=
  let X := transposeCounts t
  if X.length < 2 ∨ t.rows.length < 2 then Except.error PipeError.DimensionError
  else Except.ok (attachBiome (pcaTransform w1 w2 (standardizeMatrix sqrtFn X))
    (samples.map SRow.biome))

/-- The PCoA branch of the ordination engine.  `beta_diversity` validates
that counts are non-negative; selecting columns `PC1`, `PC2` of the PCoA
result needs at least 2 analyses.  The eigendecomposition itself enters as
the parameter `pcoaFn` mapping the dissimilarity matrix to per-analysis
coordinates (one output row per matrix row). -/
def pcoaBranch (pcoaFn : List (List ℚ) → List (ℚ × ℚ)) (t : AbundTable)
    (samples : List SRow) : Except PipeError (List Emb) :=
  let X := transposeCounts t
  if X.any (fun r => r.any (fun x => decide (x < 0))) then Except.error PipeError.ValueError
  else if X.length < 2 then Except.error PipeError.DimensionError
  else Except.ok (attachBiome (pcoaFn (bc_mat X)) (samples.map SRow.biome))

/-- The whole ordination engine as the page runs it: the PCA section first
(its exception aborts the page before the PCoA section runs), then the
PCoA section. -/
def ordination (sqrtFn : ℚ → ℚ) (w1 w2 : List ℚ)
    (pcoaFn : List (List ℚ) → List (ℚ × ℚ)) (t : AbundTable)
    (samples : List SRow) : Except PipeError (List Emb × List Emb) :=
  match pcaBranch sqrtFn w1 w2 t samples with
  | Except.error e => Except.error e
  | Except.ok p =>
      match pcoaBranch pcoaFn t samples with
      | Except.error e => Except.error e
      | Except.ok q => Except.ok (p, q)

theorem transposeCounts_length (t : AbundTable) :
    (transposeCounts t).length = t.analyses.length := by
  simp [transposeCounts]

theorem standardizeMatrix_length (f : ℚ → ℚ) (X : List (List ℚ)) :
    (standardizeMatrix f X).length = X.length := by
  simp [standardizeMatrix]

theorem pcaTransform_length (w1 w2 : List ℚ) (X : List (List ℚ)) :
    (pcaTransform w1 w2 X).length = X.length := by
  simp [pcaTransform]

theorem attachBiome_length (c : List (ℚ × ℚ)) (b : List String) :
    (attachBiome c b).length = c.length := by
  simp [attachBiome]

theorem bc_mat_length (X : List (List ℚ)) : (bc_mat X).length = X.length := by
  simp [bc_mat]

/-- Claim C3: for non-negative count vectors, the Bray-Curtis value the
code computes (scipy's formula followed by the NaN-to-0 replacement)
coincides with the specified formula — absolute differences over plain
sums, with 0 substituted when both sums vanish. -/
theorem C3_braycurtis_formula (u v : List ℚ)
    (hu : ∀ x ∈ u, 0 ≤ x) (hv : ∀ x ∈ v, 0 ≤ x) :
    nanToNum (scipyBrayCurtis u v) = braycurtisSpec u v := by
  unfold scipyBrayCurtis braycurtisSpec nanToNum
  simp only []
  have hden : ((u.zip v).map (fun p => |p.1 + p.2|)).sum
      = ((u.zip v).map (fun p => p.1 + p.2)).sum := by
    congr 1
    apply List.map_congr_left
    intro p hp
    rcases p with ⟨a, b⟩
    have hm := List.of_mem_zip hp
    exact abs_of_nonneg (add_nonneg (hu a hm.1) (hv b hm.2))
  rw [hden]
  by_cases h : ((u.zip v).map (fun p => p.1 + p.2)).sum = 0
  · rw [if_pos h, if_pos h]; rfl
  · rw [if_neg h, if_neg h]; rfl

/-- Witness for C3 at the spec's example: counts `[10, 0]` and `[0, 10]`
over 2 phyla give dissimilarity exactly 1. -/
theorem C3_braycurtis_witness :
    nanToNum (scipyBrayCurtis [10, 0] [0, 10]) = braycurtisSpec [10, 0] [0, 10] ∧
    braycurtisSpec [10, 0] [0, 10] = 1 := by
  constructor
  · exact C3_braycurtis_formula [10, 0] [0, 10] (by decide) (by decide)
  · simp [braycurtisSpec]

theorem getD_map_range (f : Nat → ℚ) (n j : Nat) (hj : j < n) (d : ℚ) :
    ((List.range n).map f).getD j d = f j := by
  rw [List.getD_eq_getElem?_getD, List.getElem?_map, List.getElem?_range hj]
  rfl

/-- Claim C6: a phylum column that is constant across the analyses has zero
variance, the scaler's guard turns its divisor into 1 rather than 0, and
every standardized value in that column is 0. -/
theorem C6_zero_variance (sqrtFn : ℚ → ℚ) (X : List (List ℚ)) (j : Nat) (c : ℚ)
    (hj : j < nFeatures X) (hc : ∀ r ∈ X, r.getD j 0 = c) :
    scaleOf (popVar (colOf X j)) (sqrtFn (popVar (colOf X j))) = 1 ∧
    (standardizeMatrix sqrtFn X).all (fun row => row.getD j 0 == 0) = true := by
  have hcol : colOf X j = List.replicate X.length c := by
    unfold colOf
    rw [List.map_congr_left hc, List.map_const']
  have hmean : X ≠ [] → colMean (colOf X j) = c := by
    intro hne
    have hn : (X.length : ℚ) ≠ 0 := by
      exact_mod_cast fun h => hne (List.length_eq_zero.mp (Nat.cast_injective
        (by exact_mod_cast h : (X.length : ℚ) = ((0 : Nat) : ℚ))))
    unfold colMean
    rw [hcol, List.sum_replicate, List.length_replicate, nsmul_eq_mul]
    exact mul_div_cancel_left₀ c hn
  have hvar : popVar (colOf X j) = 0 := by
    rcases eq_or_ne X [] with hX | hX
    · subst hX; simp [colOf, popVar, colMean]
    · unfold popVar
      rw [hmean hX, hcol]
      simp [List.map_replicate, List.sum_replicate]
  refine ⟨by rw [hvar]; simp [scaleOf], ?_⟩
  rw [List.all_eq_true]
  intro row hrow
  rcases List.mem_map.mp hrow with ⟨r, hr, hrw⟩
  rw [beq_iff_eq, ← hrw, getD_map_range _ _ _ hj]
  have hne : X ≠ [] := fun h => by rw [h] at hr; exact absurd hr (List.not_mem_nil r)
  rw [hc r hr, hmean hne, hvar, sub_self, zero_div]

/-- Witness for C6 at the concrete matrix `[[5, 7], [5, 9]]` (phylum column
0 is constantly 5): the scaler's divisor is 1 and all standardized values
in the column are 0. -/
theorem C6_zero_variance_witness :
    0 < nFeatures [[(5 : ℚ), 7], [5, 9]] ∧
    scaleOf (popVar (colOf [[(5 : ℚ), 7], [5, 9]] 0))
      ((fun _ => (0 : ℚ)) (popVar (colOf [[(5 : ℚ), 7], [5, 9]] 0))) = 1 ∧
    (standardizeMatrix (fun _ => (0 : ℚ)) [[(5 : ℚ), 7], [5, 9]]).all
      (fun row => row.getD 0 0 == 0) = true := by
  have h := C6_zero_variance (fun _ => (0 : ℚ)) [[(5 : ℚ), 7], [5, 9]] 0 5
    (by decide) (by decide)
  exact ⟨by decide, h.1, h.2⟩

/-- Claim C2 counterexample: on a study with exactly 2 analyses (and 2
phyla) the ordination engine succeeds and produces both embedding tables —
no `DimensionError` is raised, contrary to the fewer-than-3 threshold the
claim states. -/
theorem C2_two_analyses_counterexample :
    (ordination (fun _ => 0) [] [] (fun D => D.map (fun _ => (0, 0)))
        { hasKingdom := false, hasSuperkingdom := false, analyses := ["a", "b"],
          rows := [(0, ⟨none, none, "Proteobacteria", [10, 0]⟩),
                   (1, ⟨none, none, "Firmicutes", [5, 5]⟩)] }
        [⟨"a", "S1", "NA", "NA", "NA - NA"⟩,
         ⟨"b", "S1", "NA", "NA", "NA - NA"⟩]).isOk = true := by
  rfl

/-- Claim C2 (amended): the ordination engine fails with `DimensionError`
exactly when fewer than 2 analyses or fewer than 2 phylum rows are present
(in particular the empty matrix fails); a study with exactly 2 analyses
and at least 2 phyla is embedded, not rejected. -/
theorem C2_dimension_error_amended (sqrtFn : ℚ → ℚ) (w1 w2 : List ℚ)
    (pcoaFn : List (List ℚ) → List (ℚ × ℚ)) (t : AbundTable) (samples : List SRow) :
    ordination sqrtFn w1 w2 pcoaFn t samples = Except.error PipeError.DimensionError ↔
      (t.analyses.length < 2 ∨ t.rows.length < 2) := by
  unfold ordination pcaBranch pcoaBranch
  by_cases hcond : (transposeCounts t).length < 2 ∨ t.rows.length < 2
  · rw [if_pos hcond]
    simp only [transposeCounts_length] at hcond
    simp [hcond]
  · rw [if_neg hcond]
    have hcond2 : ¬(t.analyses.length < 2 ∨ t.rows.length < 2) := by
      rw [← transposeCounts_length t]; exact hcond
    by_cases hneg : (transposeCounts t).any (fun r => r.any (fun x => decide (x < 0)))
    · rw [if_pos hneg]
      simp [hcond2]
    · rw [if_neg hneg]
      have hlen : ¬(transposeCounts t).length < 2 := fun h => hcond (Or.inl h)
      rw [if_neg hlen]
      simp [hcond2]

theorem pcaBranch_ok {sqrtFn : ℚ → ℚ} {w1 w2 : List ℚ} {t : AbundTable}
    {samples : List SRow} {p : List Emb}
    (hp : pcaBranch sqrtFn w1 w2 t samples = Except.ok p) :
    p = attachBiome (pcaTransform w1 w2 (standardizeMatrix sqrtFn (transposeCounts t)))
      (samples.map SRow.biome) := by
  unfold pcaBranch at hp
  dsimp only at hp
  split at hp
  · exact absurd hp (by simp)
  · injection hp with h; exact h.symm

theorem pcoaBranch_ok {pcoaFn : List (List ℚ) → List (ℚ × ℚ)} {t : AbundTable}
    {samples : List SRow} {q : List Emb}
    (hq : pcoaBranch pcoaFn t samples = Except.ok q) :
    q = attachBiome (pcoaFn (bc_mat (transposeCounts t))) (samples.map SRow.biome) := by
  unfold pcoaBranch at hq
  dsimp only at hq
  split at hq
  · exact absurd hq (by simp)
  · split at hq
    · exact absurd hq (by simp)
    · injection hq with h; exact h.symm

theorem attachBiome_map_biome (coords : List (ℚ × ℚ)) (biomes : List String) :
    (attachBiome coords biomes).map (fun x => x.2.2)
      = (List.range coords.length).map (fun i => biomes.get? i) := by
  unfold attachBiome
  rw [List.map_map]
  rfl

theorem range_map_get {α : Type} (l : List α) :
    (List.range l.length).map (fun i => l.get? i) = l.map some := by
  induction l with
  | nil => rfl
  | cons a as ih =>
      rw [List.length_cons, List.range_succ_eq_map, List.map_cons, List.map_map,
        List.map_cons]
      exact congrArg (fun L => (a :: as).get? 0 :: L) ih

theorem samplesOf_ids_sub {a : String} (meta2 : List MRow) (t : AbundTable)
    (ha : a ∈ (samplesOf meta2 t).map SRow.run_id) :
    ∃ e ∈ explode meta2, e.run_id = a := by
  unfold samplesOf at ha
  have ha2 : a ∈ ((dedupBy [] (mergeInner (explode meta2) (meltAbund t))).map
      projectRow).map SRow.run_id := ((sortSamples_perm _).map SRow.run_id).subset ha
  rw [ids_map_projectRow] at ha2
  have ha3 := (mem_ids_dedupBy [] _).mp ha2
  exact ((mem_ids_mergeInner _ _).mp ha3.1).1

/-- Claim C10: the Biome label column attached to the PCA embedding table
equals, element by element, the one attached to the PCoA embedding table —
both are taken positionally from the same reconciled label column. -/
theorem C10_biome_columns_equal (sqrtFn : ℚ → ℚ) (w1 w2 : List ℚ)
    (pcoaFn : List (List ℚ) → List (ℚ × ℚ))
    (hlen : ∀ D, (pcoaFn D).length = D.length)
    (t : AbundTable) (samples : List SRow) (p q : List Emb)
    (hp : pcaBranch sqrtFn w1 w2 t samples = Except.ok p)
    (hq : pcoaBranch pcoaFn t samples = Except.ok q) :
    p.map (fun x => x.2.2) = q.map (fun x => x.2.2) := by
  rw [pcaBranch_ok hp, pcoaBranch_ok hq, attachBiome_map_biome, attachBiome_map_biome,
    pcaTransform_length, standardizeMatrix_length, hlen, bc_mat_length]

/-- Witness for C10 at a concrete 2-analysis study: both branches succeed
and carry the identical label column. -/
theorem C10_biome_columns_equal_witness :
    ([((0 : ℚ), (0 : ℚ), some "wetland - water"), ((0 : ℚ), (0 : ℚ), some "NA - NA")]
        : List Emb).map (fun x => x.2.2)
      = ([((0 : ℚ), (0 : ℚ), some "wetland - water"), ((0 : ℚ), (0 : ℚ), some "NA - NA")]
        : List Emb).map (fun x => x.2.2) := by
  exact C10_biome_columns_equal (fun _ => 0) [] [] (fun D => D.map (fun _ => (0, 0)))
    (fun D => by rw [List.length_map])
    { hasKingdom := false, hasSuperkingdom := false, analyses := ["a", "b"],
      rows := [(0, ⟨none, none, "Proteobacteria", [10, 0]⟩),
               (1, ⟨none, none, "Firmicutes", [5, 5]⟩)] }
    [⟨"a", "S1", "wetland", "water", "wetland - water"⟩,
     ⟨"b", "S1", "NA", "NA", "NA - NA"⟩]
    _ _ rfl rfl

theorem pcaBranch_ok_length {sqrtFn : ℚ → ℚ} {w1 w2 : List ℚ} {t : AbundTable}
    {samples : List SRow} {p : List Emb}
    (hp : pcaBranch sqrtFn w1 w2 t samples = Except.ok p) :
    p.length = t.analyses.length := by
  rw [pcaBranch_ok hp, attachBiome_length, pcaTransform_length,
    standardizeMatrix_length, transposeCounts_length]

theorem pcoaBranch_ok_length {pcoaFn : List (List ℚ) → List (ℚ × ℚ)} {t : AbundTable}
    {samples : List SRow} {q : List Emb}
    (hlen : ∀ D, (pcoaFn D).length = D.length)
    (hq : pcoaBranch pcoaFn t samples = Except.ok q) :
    q.length = t.analyses.length := by
  rw [pcoaBranch_ok hq, attachBiome_length, hlen, bc_mat_length, transposeCounts_length]

/-- Concrete study used to settle C7: three analysis columns `a`, `b`, `c`,
of which only `a` and `b` occur in the metadata. -/
def tC7ex : AbundTable :=
  { hasKingdom := false, hasSuperkingdom := false, analyses := ["a", "b", "c"],
    rows := [(0, ⟨none, none, "Proteobacteria", [10, 0, 3]⟩),
             (1, ⟨none, none, "Firmicutes", [5, 5, 2]⟩)] }

/-- Metadata for the C7 study: one sample owning analyses `a` and `b` only. -/
def metaC7ex : List MRow := [⟨"S1", Cell.s "a;b", none, none⟩]

/-- Claim C7 counterexample: the unmatched analysis `c` is dropped from the
reconciled table, but the PCA embedding table still has 3 rows — one per
analysis column, including `c`, whose row carries a NaN label — so the
analysis is not excluded from the embedding tables. -/
theorem C7_unmatched_counterexample :
    (samples_df metaC7ex tC7ex).map SRow.run_id = ["a", "b"] ∧
    (pcaBranch (fun _ => 0) [] [] tC7ex (samples_df metaC7ex tC7ex)).toOption.map
        (fun l => l.map (fun x => x.2.2))
      = some [some "NA - NA", some "NA - NA", none] := by
  exact ⟨rfl, rfl⟩

/-- Claim C7 (amended): an analysis column absent from every expanded
metadata row is excluded from the reconciled table, but both embedding
tables keep one row per analysis column of the normalized table; only the
label column, being positional, stops covering it. -/
theorem C7_unmatched_amended (sqrtFn : ℚ → ℚ) (w1 w2 : List ℚ)
    (pcoaFn : List (List ℚ) → List (ℚ × ℚ))
    (hlen : ∀ D, (pcoaFn D).length = D.length)
    (meta : List MRow) (t : AbundTable) (a : String) (p q : List Emb)
    (_ha : a ∈ t.analyses)
    (hno : ∀ e ∈ explode (splitRunIds meta), e.run_id ≠ a)
    (hp : pcaBranch sqrtFn w1 w2 t (samples_df meta t) = Except.ok p)
    (hq : pcoaBranch pcoaFn t (samples_df meta t) = Except.ok q) :
    a ∉ (samples_df meta t).map SRow.run_id ∧
    p.length = t.analyses.length ∧ q.length = t.analyses.length := by
  refine ⟨fun hmem => ?_, pcaBranch_ok_length hp, pcoaBranch_ok_length hlen hq⟩
  rcases samplesOf_ids_sub (splitRunIds meta) t hmem with ⟨e, he, hea⟩
  exact hno e he hea

/-- Witness for C7 (amended) at the concrete C7 study. -/
theorem C7_unmatched_amended_witness :
    ("c" ∈ tC7ex.analyses) ∧
    ("c" ∉ (samples_df metaC7ex tC7ex).map SRow.run_id) ∧
    ([((0 : ℚ), (0 : ℚ), some "NA - NA"), ((0 : ℚ), (0 : ℚ), some "NA - NA"),
      ((0 : ℚ), (0 : ℚ), none)] : List Emb).length = tC7ex.analyses.length := by
  have h := C7_unmatched_amended (fun _ => 0) [] [] (fun D => D.map (fun _ => (0, 0)))
    (fun D => by rw [List.length_map]) metaC7ex tC7ex "c"
    [((0 : ℚ), (0 : ℚ), some "NA - NA"), ((0 : ℚ), (0 : ℚ), some "NA - NA"),
      ((0 : ℚ), (0 : ℚ), none)]
    [((0 : ℚ), (0 : ℚ), some "NA - NA"), ((0 : ℚ), (0 : ℚ), some "NA - NA"),
      ((0 : ℚ), (0 : ℚ), none)]
    (by decide) (by decide) rfl rfl
  exact ⟨by decide, h.1, h.2.1⟩

theorem mem_ids_samplesOf {a : String} (meta2 : List MRow) (t : AbundTable) :
    a ∈ (samplesOf meta2 t).map SRow.run_id ↔
      (∃ e ∈ explode meta2, e.run_id = a) ∧ a ∈ t.analyses ∧ t.rows ≠ [] := by
  unfold samplesOf
  constructor
  · intro h
    have h2 := ((sortSamples_perm _).map SRow.run_id).subset h
    rw [ids_map_projectRow] at h2
    have h3 := (mem_ids_dedupBy [] _).mp h2
    have h4 := (mem_ids_mergeInner _ _).mp h3.1
    exact ⟨h4.1, (mem_ids_meltCols t.analyses 0 t.rows).mp h4.2⟩
  · rintro ⟨he, hmem, hne⟩
    have h4 := (mem_ids_mergeInner (explode meta2) (meltAbund t)).mpr
      ⟨he, (mem_ids_meltCols t.analyses 0 t.rows).mpr ⟨hmem, hne⟩⟩
    have h3 := (mem_ids_dedupBy [] _).mpr ⟨h4, List.not_mem_nil a⟩
    rw [← ids_map_projectRow] at h3
    exact ((sortSamples_perm _).map SRow.run_id).mem_iff.mpr h3

theorem samples_df_ids (meta : List MRow) (t : AbundTable)
    (hs : List.Sorted (fun a b : String => leStr a b = true) t.analyses)
    (hnd : t.analyses.Nodup) (hr : t.rows ≠ [])
    (hcov : ∀ a ∈ t.analyses, ∃ e ∈ explode (splitRunIds meta), e.run_id = a) :
    (samples_df meta t).map SRow.run_id = t.analyses := by
  have hnodup : ((samples_df meta t).map SRow.run_id).Nodup := by
    unfold samples_df samplesOf
    rw [((sortSamples_perm _).map SRow.run_id).nodup_iff, ids_map_projectRow]
    exact ids_dedupBy_nodup [] _
  have hmemiff : ∀ x, x ∈ (samples_df meta t).map SRow.run_id ↔ x ∈ t.analyses := by
    intro x
    unfold samples_df
    rw [mem_ids_samplesOf]
    constructor
    · rintro ⟨-, hmem, -⟩; exact hmem
    · intro hmem; exact ⟨hcov x hmem, hmem, hr⟩
  have hperm2 : ((samples_df meta t).map SRow.run_id).Perm t.analyses :=
    (List.perm_ext_iff_of_nodup hnodup hnd).mpr hmemiff
  have hsorted : List.Sorted (fun a b : String => leStr a b = true)
      ((samples_df meta t).map SRow.run_id) := sortSamples_sorted_ids _
  exact List.eq_of_perm_of_sorted hperm2 hsorted hs

theorem attach_biome_column (coords : List (ℚ × ℚ)) (samples : List SRow)
    (hl : coords.length = samples.length) :
    (attachBiome coords (samples.map SRow.biome)).map (fun x => x.2.2)
      = samples.map (fun r => some r.biome) := by
  rw [attachBiome_map_biome, hl, ← List.length_map samples SRow.biome,
    range_map_get, List.map_map]
  rfl

/-- Claim C1: on a valid input — abundance columns sorted and duplicate
free, at least one phylum row, every analysis column covered by the
expanded metadata — both embedding tables have exactly one row per
analysis column of the normalized table, the reconciled table lists the
analyses in exactly that column order, and the Biome label carried
positionally into each embedding row is the reconciled label of that same
analysis. -/
theorem C1_alignment (sqrtFn : ℚ → ℚ) (w1 w2 : List ℚ)
    (pcoaFn : List (List ℚ) → List (ℚ × ℚ))
    (hlen : ∀ D, (pcoaFn D).length = D.length)
    (meta : List MRow) (t : AbundTable) (p q : List Emb)
    (hs : List.Sorted (fun a b : String => leStr a b = true) t.analyses)
    (hnd : t.analyses.Nodup) (hr : t.rows ≠ [])
    (hcov : ∀ a ∈ t.analyses, ∃ e ∈ explode (splitRunIds meta), e.run_id = a)
    (hp : pcaBranch sqrtFn w1 w2 t (samples_df meta t) = Except.ok p)
    (hq : pcoaBranch pcoaFn t (samples_df meta t) = Except.ok q) :
    p.length = t.analyses.length ∧ q.length = t.analyses.length ∧
    (samples_df meta t).map SRow.run_id = t.analyses ∧
    p.map (fun x => x.2.2) = (samples_df meta t).map (fun r => some r.biome) ∧
    q.map (fun x => x.2.2) = (samples_df meta t).map (fun r => some r.biome) := by
  have hids := samples_df_ids meta t hs hnd hr hcov
  have hlensamples : t.analyses.length = (samples_df meta t).length := by
    have h := congrArg List.length hids
    rw [List.length_map] at h
    exact h.symm
  refine ⟨pcaBranch_ok_length hp, pcoaBranch_ok_length hlen hq, hids, ?_, ?_⟩
  · rw [pcaBranch_ok hp]
    apply attach_biome_column
    rw [pcaTransform_length, standardizeMatrix_length, transposeCounts_length]
    exact hlensamples
  · rw [pcoaBranch_ok hq]
    apply attach_biome_column
    rw [hlen, bc_mat_length, transposeCounts_length]
    exact hlensamples

/-- Concrete valid study used as the C1 witness: two analysis columns in
sorted order, both covered by one metadata row listing them as `b;a`. -/
def tC1ex : AbundTable :=
  { hasKingdom := false, hasSuperkingdom := false, analyses := ["a", "b"],
    rows := [(0, ⟨none, none, "Proteobacteria", [10, 0]⟩),
             (1, ⟨none, none, "Firmicutes", [5, 5]⟩)] }

/-- Metadata for the C1 witness study. -/
def metaC1ex : List MRow := [⟨"S1", Cell.s "b;a", none, some "water"⟩]

/-- Witness for C1 at the concrete valid study: the reconciled identifiers
equal the column list, and both branches carry its labels positionally. -/
theorem C1_alignment_witness :
    (samples_df metaC1ex tC1ex).map SRow.run_id = tC1ex.analyses ∧
    ([((0 : ℚ), (0 : ℚ), some "NA - water"), ((0 : ℚ), (0 : ℚ), some "NA - water")]
        : List Emb).map (fun x => x.2.2)
      = (samples_df metaC1ex tC1ex).map (fun r => some r.biome) ∧
    ([((0 : ℚ), (0 : ℚ), some "NA - water"), ((0 : ℚ), (0 : ℚ), some "NA - water")]
        : List Emb).length = tC1ex.analyses.length := by
  have h := C1_alignment (fun _ => 0) [] [] (fun D => D.map (fun _ => (0, 0)))
    (fun D => by rw [List.length_map]) metaC1ex tC1ex
    [((0 : ℚ), (0 : ℚ), some "NA - water"), ((0 : ℚ), (0 : ℚ), some "NA - water")]
    [((0 : ℚ), (0 : ℚ), some "NA - water"), ((0 : ℚ), (0 : ℚ), some "NA - water")]
    (by decide) (by decide) (by decide) (by decide) rfl rfl
  exact ⟨h.2.2.1, h.2.2.2.1, h.1⟩

end WWT
